import Mathlib

/-!
# Graphony: a shallow embedding of the relation engine

This file embeds the core of the Graphony hyper/property graph library:

* `src/graphony/graph.py` — the `Graph` class with its `_add` insertion
  protocol, `__getitem__` name resolution, the 8-way pattern query
  `__call__` (we embed the branches under scrutiny: `(source, relation,
  destination)`, `(source, None, destination)` and `(None, relation,
  destination)`), `__delitem__` and `__len__`, together with the
  incidence-pair `Relation` class defined in the same file (`A` maps
  source ids to edge ids, `B` maps edge ids to destination ids).
* `src/graphony/relation.py` — the newer dual-mode `Relation` class
  (adjacency mode: a single weight matrix; incidence mode: the `A`/`B`
  pair) with its `add` method.
* `src/graphony/edge.py` — the `Edge` and `Hedge` NamedTuple views.

Sparse GraphBLAS matrices are modelled as association lists from
`(row, col)` keys to stored values; point assignment overwrites, `nvals`
is the number of stored entries, and slices are returned sorted by index
as GraphBLAS extraction does.  The PostgreSQL-backed Identity Registry
(name/id resolution and edge-id allocation) is an external collaborator
of the library; it is modelled from the spec's contract (§6): idempotent
name upsert returning dense ids, and a monotonically increasing global
edge-id counter.
-/

set_option autoImplicit false

namespace Graphony

/-! ## Sparse matrix model -/

/-- A sparse matrix: stored entries keyed by `(row, col)`. -/
abbrev Mat (W : Type) : Type := List ((Nat × Nat) × W)

/-- Point lookup: the stored value at a key, if any. -/
def matGet {W : Type} : Mat W → Nat × Nat → Option W
  | [], _ => none
  | e :: m, k => if e.1 = k then some e.2 else matGet m k

/-- Point assignment `M[i, j] = w`: overwrite the stored entry if the key
is present, otherwise store a new entry. -/
def matSet {W : Type} (m : Mat W) (k : Nat × Nat) (w : W) : Mat W :=
  if (matGet m k).isSome then
    m.map (fun e => if e.1 = k then (k, w) else e)
  else
    m ++ [(k, w)]

/-- `nvals`: the number of stored entries. -/
def matNvals {W : Type} (m : Mat W) : Nat := m.length

/-- The stored keys of a matrix are pairwise distinct (true of a real
matrix by construction; our assoc-list model preserves it). -/
def matKeysNodup {W : Type} (m : Mat W) : Prop :=
  (m.map (fun e => e.1)).Nodup

instance {W : Type} (m : Mat W) : Decidable (matKeysNodup m) := by
  unfold matKeysNodup; infer_instance

/-- Insert into a list of `(index, value)` pairs sorted by index. -/
def insSorted {V : Type} (p : Nat × V) : List (Nat × V) → List (Nat × V)
  | [] => [p]
  | q :: l => if p.1 ≤ q.1 then p :: q :: l else q :: insSorted p l

/-- Sort a list of `(index, value)` pairs by index. -/
def sortByIdx {V : Type} : List (Nat × V) → List (Nat × V)
  | [] => []
  | p :: l => insSorted p (sortByIdx l)

/-- Row slice `M[i]`: the `(col, value)` pairs of row `i`, sorted by
column index (GraphBLAS extraction order). -/
def rowSlice {W : Type} (m : Mat W) (i : Nat) : List (Nat × W) :=
  sortByIdx ((m.filter (fun e => decide (e.1.1 = i))).map (fun e => (e.1.2, e.2)))

/-- Insert a number into a sorted list of numbers. -/
def insNat (a : Nat) : List Nat → List Nat
  | [] => [a]
  | b :: l => if a ≤ b then a :: b :: l else b :: insNat a l

/-- Sort a list of numbers. -/
def sortNat : List Nat → List Nat
  | [] => []
  | a :: l => insNat a (sortNat l)

/-- The distinct row indices carrying stored entries, sorted. -/
def rowIndices {W : Type} (m : Mat W) : List Nat :=
  sortNat (m.map (fun e => e.1.1)).dedup

/-! ## Identity Registry (spec-modelled name/id mapping) -/

/-- Modelled from the spec: the Identity Registry's name→id mapping (§6,
`get_node_id` / `get_relation_id`).  Names receive dense ids in order of
first appearance; `nameId ns s` is the id of `s` in the registry list
`ns`, or `none` when the name was never seen. -/
def nameId : List String → String → Option Nat
  | [], _ => none
  | n :: ns, s => if n = s then some 0 else (nameId ns s).map (fun i => i + 1)

/-- Modelled from the spec: the Identity Registry's idempotent upsert
(§6, `upsert_node` / `upsert_relation`): return the existing id if the
name is known, otherwise mint the next dense id. -/
def upsertName (ns : List String) (s : String) : Nat × List String :=
  match nameId ns s with
  | some i => (i, ns)
  | none => (ns.length, ns ++ [s])

/-! ## Python value and error model -/

/-- A value flowing through the query code: either the Python boolean
`True` that initializes the local `weight`, or a stored weight. -/
inductive PyW (W : Type) where
  | pbool (b : Bool)
  | pw (w : W)
deriving DecidableEq

/-- The exceptions the embedded code can raise. -/
inductive PyErr where
  /-- `KeyError` from `Graph.__getitem__` or a dict lookup. -/
  | keyError
  /-- `pygraphblas.base.NoValue` from a point lookup with no entry. -/
  | noValue
  /-- `UnboundLocalError`: a local read before any assignment. -/
  | unboundLocal
  /-- A Shape error: endpoint cardinality inconsistent with the mode. -/
  | shapeError
deriving DecidableEq

/-! ## graph.py: `Graph`, its inner `Relation`, and the query branches -/

/-- The `Relation` class defined inside graph.py: a pair of incidence
matrices, `A` from source ids to edge ids (boolean), `B` from edge ids
to destination ids (weights). -/
structure GRel (W : Type) where
  rid : Nat
  name : String
  A : Mat Bool
  B : Mat W
deriving DecidableEq

/-- graph.py `Relation.add`: `A[sid, eid] = True; B[eid, did] = weight`. -/
def GRel.add {W : Type} (r : GRel W) (sid eid did : Nat) (w : W) : GRel W :=
  { r with A := matSet r.A (sid, eid) true, B := matSet r.B (eid, did) w }

/-- graph.py `Relation.__len__`: `B.nvals`. -/
def GRel.len {W : Type} (r : GRel W) : Nat := matNvals r.B

/-- The graph.py `Graph` state: the registry's node and relation name
tables and edge-id counter (spec-modelled external collaborators), plus
the `_relations` mapping in insertion order.  The weight type `W` is the
weight type shared by the relations under consideration. -/
structure Graph (W : Type) where
  nodes : List String
  relNames : List String
  edgeCtr : Nat
  relations : List (GRel W)
deriving DecidableEq

/-- A graph connected to a fresh registry, with no relations. -/
def emptyGraph (W : Type) : Graph W := ⟨[], [], 0, []⟩

/-- Lookup in the `_relations` dict by relation id. -/
def findRel {W : Type} (rs : List (GRel W)) (rid : Nat) : Option (GRel W) :=
  rs.find? (fun r => decide (r.rid = rid))

/-- Update the `_relations` dict entry for a relation id. -/
def updateRel {W : Type} (rs : List (GRel W)) (rid : Nat) (f : GRel W → GRel W) :
    List (GRel W) :=
  rs.map (fun r => if r.rid = rid then f r else r)

/-- Python `str.isidentifier` (ASCII fragment): nonempty, a letter or
underscore first, then letters, digits or underscores. -/
def isIdentifier (s : String) : Bool :=
  match s.data with
  | [] => false
  | c :: cs => (c.isAlpha || c == '_') && cs.all (fun d => d.isAlphanum || d == '_')

/-- Whether a string starts with an underscore. -/
def startsWithUnderscore (s : String) : Bool :=
  match s.data with
  | [] => false
  | c :: _ => c == '_'

/-- The relation-name validity condition tested at the top of
`Graph._add`: a valid identifier not starting with the reserved `_`
prefix. -/
def relNameOk (s : String) : Bool :=
  isIdentifier s && !startsWithUnderscore s

/-- graph.py `Graph._add`, the target of `+=`: upsert both endpoint
names, allocate a fresh edge id when none is supplied, upsert the
relation name, create the relation on first use, then delegate to
`Relation.add`.

The source's relation-name check is `assert NameError(...)`: it asserts
a freshly constructed exception object, which is always truthy, so the
check never raises and has no effect on the state; accordingly
`relNameOk` does not appear below.  Endpoints are taken as names (the
pre-resolved `Node` fast path carries the same id the upsert returns). -/
def Graph._add {W : Type} (g : Graph W) (relation source destination : String)
    (weight : W) (eido : Option Nat) : Graph W :=
  let su := upsertName g.nodes source
  let du := upsertName su.2 destination
  let ep : Nat × Nat :=
    match eido with
    | some e => (e, g.edgeCtr)
    | none => (g.edgeCtr, g.edgeCtr + 1)
  let ru := upsertName g.relNames relation
  let rels :=
    match findRel g.relations ru.1 with
    | some _ => updateRel g.relations ru.1 (fun r => GRel.add r su.1 ep.1 du.1 weight)
    | none => g.relations ++ [GRel.add (GRel.mk ru.1 relation [] []) su.1 ep.1 du.1 weight]
  ⟨du.2, ru.2, ep.2, rels⟩

/-- graph.py `Graph.__getitem__` on a name: resolve it to a node id or
raise `KeyError`. -/
def Graph.getItem {W : Type} (g : Graph W) (key : String) : Except PyErr Nat :=
  match nameId g.nodes key with
  | some i => Except.ok i
  | none => Except.error PyErr.keyError

/-- The `Edge` NamedTuple of graph.py as produced by `Graph.__call__`
(each yielded edge's `graph` field is the queried graph itself, so it is
not repeated here). -/
structure EdgeG (W : Type) where
  rid : Nat
  sid : Nat
  did : Nat
  weight : PyW W
  eid : Nat
deriving DecidableEq

/-- `rel(INT64.any_secondi)[sid, did]`: the composed incidence pair at a
point — some edge id `e` with `A[sid, e]` and `B[e, did]` both stored
(the ANY monoid picks the first in slice order), or no value. -/
def anySecondiGet {W : Type} (A : Mat Bool) (B : Mat W) (s d : Nat) : Option Nat :=
  (rowSlice A s).findSome? (fun p => if (matGet B (p.1, d)).isSome then some p.1 else none)

/-- `rel(INT64.any_secondi)[:, did]`: the column slice of the composed
pair — for each source row, the composed entry at `(s, did)` if any,
yielding `(sid, eid)` pairs. -/
def colAnySecondi {W : Type} (A : Mat Bool) (B : Mat W) (d : Nat) : List (Nat × Nat) :=
  (rowIndices A).filterMap (fun s => (anySecondiGet A B s d).map (fun e => (s, e)))

/-- graph.py `Graph.__call__`, branch `(source, relation, destination)`
all bound (with the default `weighted=True`): resolve the source, the
relation id and object, and the destination; then for each edge id in
`A`'s row for the source, read `B[eid, did]` — a point lookup whose
`NoValue` is NOT caught in this branch — and yield an `Edge`. -/
def querySRD {W : Type} (g : Graph W) (relation source destination : String) :
    Except PyErr (List (EdgeG W)) := do
  let sid ← g.getItem source
  let rid ←
    match nameId g.relNames relation with
    | some i => Except.ok i
    | none => Except.error PyErr.keyError
  let rel ←
    match findRel g.relations rid with
    | some r => Except.ok r
    | none => Except.error PyErr.keyError
  let did ← g.getItem destination
  (rowSlice rel.A sid).mapM (fun p => do
    let w ←
      match matGet rel.B (p.1, did) with
      | some v => Except.ok (PyW.pw v)
      | none => Except.error PyErr.noValue
    pure (EdgeG.mk rid sid did w p.1))

/-- graph.py `Graph.__call__`, branch `(source, None, destination)`:
resolve both names, then probe every relation; a missing composed entry
raises `NoValue`, which the `except NoValue: continue` clause swallows.
When the probe finds an edge id, `weight = rel.B[eid, did]` succeeds,
but the subsequent `yield Edge(self, rid, ...)` reads the local `rid`,
which is never assigned on this path (the loop binds the dict key to the
shadowed name `relation` instead), raising `UnboundLocalError`, which
the `except NoValue` clause does not catch. -/
def querySD {W : Type} (g : Graph W) (source destination : String) :
    Except PyErr (List (EdgeG W)) := do
  let sid ← g.getItem source
  let did ← g.getItem destination
  g.relations.foldlM
    (fun acc rel =>
      match anySecondiGet rel.A rel.B sid did with
      | none => pure acc
      | some _ => Except.error PyErr.unboundLocal)
    ([] : List (EdgeG W))

/-- graph.py `Graph.__call__`, branch `(None, relation, destination)`:
resolve the relation id and object and the destination, then column
slice the composed pair.  This branch never assigns the local `weight`,
which keeps the initial value `True` set at the top of `__call__`, so
every yielded `Edge` carries the Python boolean `True` in place of the
stored weight. -/
def queryRD {W : Type} (g : Graph W) (relation destination : String) :
    Except PyErr (List (EdgeG W)) := do
  let rid ←
    match nameId g.relNames relation with
    | some i => Except.ok i
    | none => Except.error PyErr.keyError
  let rel ←
    match findRel g.relations rid with
    | some r => Except.ok r
    | none => Except.error PyErr.keyError
  let did ← g.getItem destination
  pure ((colAnySecondi rel.A rel.B did).map
    (fun p => EdgeG.mk rid p.1 did (PyW.pbool true) p.2))

/-- graph.py `Graph.__delitem__` with a `(source, relation, destination)`
key of optional names.  A bound source is resolved first (`KeyError` on
an unknown name).  With both source and relation bound the code looks up
`self._relations[relation]` — a dict keyed by integer relation ids probed
with a string name, which raises `KeyError`.  The patterns
`(source, None, destination)`, `(source, None, None)`,
`(None, relation, destination)`, `(None, relation, None)` and
`(None, None, destination)` all fall into bare `pass` branches, leaving
the graph unchanged.  The all-`None` pattern clears the `A` and `B`
matrices of every relation, keeping the `_relations` mapping itself
(the loop body of the final branch is `clearRels`). -/
def clearRels {W : Type} (g : Graph W) : Graph W :=
  { g with relations := g.relations.map (fun r => { r with A := [], B := [] }) }

def Graph.delItem {W : Type} (g : Graph W)
    (source relation destination : Option String) : Except PyErr (Graph W) :=
  match source with
  | some s => do
      let _sid ← g.getItem s
      match relation with
      | some _ => Except.error PyErr.keyError
      | none => pure g
  | none =>
      match relation with
      | some _ => pure g
      | none =>
          match destination with
          | some _ => pure g
          | none => pure (clearRels g)

/-- graph.py `Graph.__len__`: the sum of the relation lengths. -/
def Graph.len {W : Type} (g : Graph W) : Nat :=
  (g.relations.map GRel.len).sum

/-- Well-formedness of a graph state: every relation object in the
`_relations` mapping carries the id the registry assigned to its name.
This holds by construction of `_add` (the relation object is created
from the upserted id and name) and for relations loaded from the
registry at `__init__`. -/
def Graph.wf {W : Type} (g : Graph W) : Prop :=
  ∀ r ∈ g.relations, g.relNames[r.rid]? = some r.name

instance {W : Type} (g : Graph W) : Decidable (Graph.wf g) := by
  unfold Graph.wf; infer_instance

/-! ## relation.py: the dual-mode `Relation` class -/

/-- The registry state relation.py reaches through its graph
back-reference: the node name table and the global edge-id counter. -/
structure Registry where
  nodes : List String
  edgeCtr : Nat
deriving DecidableEq

/-- Modelled from the spec: `graph.get_node`, the Identity Registry's
idempotent node upsert consumed by `Relation.add` (§6, `upsert_node`);
the graph.py under src predates it, so only its contract is available. -/
def getNode (st : Registry) (name : String) : Nat × Registry :=
  let u := upsertName st.nodes name
  (u.1, { st with nodes := u.2 })

/-- Modelled from the spec: `graph._new_edge`, the Identity Registry's
globally unique, monotonically increasing edge-id allocator (§6,
`new_edge_id`). -/
def newEdgeId (st : Registry) : Nat × Registry :=
  (st.edgeCtr, { st with edgeCtr := st.edgeCtr + 1 })

/-- Resolve a list of names in order, threading the registry. -/
def getNodes (st : Registry) : List String → List Nat × Registry
  | [] => ([], st)
  | n :: ns =>
      let u := getNode st n
      let rest := getNodes u.2 ns
      (u.1 :: rest.1, rest.2)

/-- A duck-typed endpoint argument of `Relation.add`: a single node name
or a tuple of names. -/
inductive EndPt where
  | one (name : String)
  | many (names : List String)

/-- `for s in source` when `source` is a tuple, else the single name. -/
def endNames : EndPt → List String
  | .one s => [s]
  | .many ss => ss

/-- The per-mode storage of a relation.py `Relation`: a single weight
matrix in adjacency mode, or the boolean/weight incidence pair. -/
inductive RelStorage (W : Type) where
  | adjacency (A : Mat W)
  | incidence (A : Mat Bool) (B : Mat W)
deriving DecidableEq

/-- The relation.py `Relation`. -/
structure RelPy (W : Type) where
  rid : Nat
  name : String
  storage : RelStorage W
deriving DecidableEq

/-- Write a list of keys into a matrix with one shared value, in order
(the `for` loops at the end of relation.py `Relation.add`). -/
def setAll {W : Type} (m : Mat W) (ks : List (Nat × Nat)) (w : W) : Mat W :=
  match ks with
  | [] => m
  | k :: ks => setAll (matSet m k w) ks w

/-- relation.py `Relation.add`.  Adjacency mode: resolve the two
endpoints and write `A[source_id, destination_id] = weight` (handing a
tuple to `get_node` is a shape error, modelled as such).  Incidence
mode: allocate a fresh edge id when none is supplied, resolve all source
then all destination names, write `A[s, eid] = A_weight` for every
source and `B[eid, d] = weight` for every destination. -/
def RelPy.add {W : Type} (st : Registry) (r : RelPy W) (source destination : EndPt)
    (weight : W) (eido : Option Nat) (aWeight : Bool) :
    Except PyErr (Registry × RelPy W) :=
  match r.storage with
  | .adjacency A =>
      match source, destination with
      | .one s, .one d =>
          let su := getNode st s
          let du := getNode su.2 d
          Except.ok (du.2, { r with storage := .adjacency (matSet A (su.1, du.1) weight) })
      | _, _ => Except.error PyErr.shapeError
  | .incidence A B =>
      let eu : Nat × Registry :=
        match eido with
        | some e => (e, st)
        | none => newEdgeId st
      let su := getNodes eu.2 (endNames source)
      let du := getNodes su.2 (endNames destination)
      let A2 := setAll A (su.1.map (fun s => (s, eu.1))) aWeight
      let B2 := setAll B (du.1.map (fun d => (eu.1, d))) weight
      Except.ok (du.2, { r with storage := .incidence A2 B2 })

/-- relation.py `Relation.__len__`: `B.nvals` in incidence mode,
`A.nvals` in adjacency mode. -/
def RelPy.len {W : Type} (r : RelPy W) : Nat :=
  match r.storage with
  | .adjacency A => matNvals A
  | .incidence _ B => matNvals B

/-! ## edge.py: the `Edge` and `Hedge` NamedTuple views -/

/-- The edge.py `Edge` NamedTuple.  Its first field `graph` holds the
owning graph object; Python compares objects without `__eq__` by
identity, modelled by an identity token. -/
structure EdgeV (W : Type) where
  graph : Nat
  rid : Nat
  sid : Nat
  did : Nat
  weight : W
  eid : Option Nat
deriving DecidableEq

/-- The edge.py `Hedge` NamedTuple (hyperedge view). -/
structure HedgeV (W : Type) where
  graph : Nat
  rid : Nat
  sids : List Nat
  dids : List Nat
  weights : List W
  eid : Option Nat
deriving DecidableEq

/-- NamedTuple `__eq__` on `Edge`: componentwise equality of the full
field tuple, the `graph` back-reference included. -/
def edgeEq {W : Type} [DecidableEq W] (e1 e2 : EdgeV W) : Bool :=
  decide (e1.graph = e2.graph) && decide (e1.rid = e2.rid) && decide (e1.sid = e2.sid)
    && decide (e1.did = e2.did) && decide (e1.weight = e2.weight)
    && decide (e1.eid = e2.eid)

/-- NamedTuple `__eq__` on `Hedge`: componentwise equality of the full
field tuple, the `graph` back-reference included. -/
def hedgeEq {W : Type} [DecidableEq W] (e1 e2 : HedgeV W) : Bool :=
  decide (e1.graph = e2.graph) && decide (e1.rid = e2.rid) && decide (e1.sids = e2.sids)
    && decide (e1.dids = e2.dids) && decide (e1.weights = e2.weights)
    && decide (e1.eid = e2.eid)

/-! ## Lemmas about the sparse matrix model -/

theorem matGet_eq_none_iff {W : Type} (m : Mat W) (k : Nat × Nat) :
    matGet m k = none ↔ ∀ e ∈ m, e.1 ≠ k := by
  induction m with
  | nil => simp [matGet]
  | cons e m ih =>
      by_cases h : e.1 = k
      · simp [matGet, h]
      · simp [matGet, h, ih]

theorem matGet_append_left {W : Type} {m1 : Mat W} {k : Nat × Nat} {v : W} (m2 : Mat W)
    (h : matGet m1 k = some v) : matGet (m1 ++ m2) k = some v := by
  induction m1 with
  | nil => simp [matGet] at h
  | cons e m ih =>
      by_cases he : e.1 = k
      · simp only [matGet, List.cons_append, if_pos he] at h ⊢; exact h
      · simp only [matGet, List.cons_append, if_neg he] at h ⊢; exact ih h

theorem matGet_append_right {W : Type} {m1 : Mat W} {k : Nat × Nat} (m2 : Mat W)
    (h : matGet m1 k = none) : matGet (m1 ++ m2) k = matGet m2 k := by
  induction m1 with
  | nil => simp
  | cons e m ih =>
      by_cases he : e.1 = k
      · simp only [matGet, if_pos he] at h; cases h
      · simp only [matGet, List.cons_append, if_neg he] at h ⊢; exact ih h

theorem matGet_replace_self {W : Type} (m : Mat W) (k : Nat × Nat) (w : W) :
    matGet (m.map (fun e => if e.1 = k then (k, w) else e)) k =
      if (matGet m k).isSome then some w else none := by
  induction m with
  | nil => simp [matGet]
  | cons e m ih =>
      by_cases he : e.1 = k
      · simp [matGet, he]
      · simp [matGet, he, ih]

theorem matGet_matSet_self {W : Type} (m : Mat W) (k : Nat × Nat) (w : W) :
    matGet (matSet m k w) k = some w := by
  unfold matSet
  by_cases h : (matGet m k).isSome
  · rw [if_pos h, matGet_replace_self, if_pos h]
  · rw [if_neg h, matGet_append_right _ (Option.not_isSome_iff_eq_none.mp h)]
    simp [matGet]

theorem matGet_replace_ne {W : Type} (m : Mat W) {k k2 : Nat × Nat} (w : W) (h : k2 ≠ k) :
    matGet (m.map (fun e => if e.1 = k then (k, w) else e)) k2 = matGet m k2 := by
  induction m with
  | nil => rfl
  | cons e m ih =>
      by_cases he : e.1 = k
      · have h1 : ¬ ((k, w).1 = k2) := fun hh => h (hh.symm)
        have h2 : ¬ (e.1 = k2) := by rw [he]; intro hh; exact h hh.symm
        simp [matGet, he, h1, h2, ih]
      · by_cases h2 : e.1 = k2
        · simp only [List.map_cons, if_neg he, matGet, if_pos h2]
        · simp only [List.map_cons, if_neg he, matGet, if_neg h2]; exact ih

theorem matGet_matSet_ne {W : Type} (m : Mat W) {k k2 : Nat × Nat} (w : W) (h : k2 ≠ k) :
    matGet (matSet m k w) k2 = matGet m k2 := by
  unfold matSet
  by_cases hs : (matGet m k).isSome
  · rw [if_pos hs, matGet_replace_ne m w h]
  · rw [if_neg hs]
    cases hm2 : matGet m k2 with
    | some v => exact matGet_append_left _ hm2
    | none =>
        rw [matGet_append_right _ hm2]
        have h1 : ¬ ((k, w).1 = k2) := fun hh => h (hh.symm)
        simp [matGet, h1]

theorem matSet_of_get_none {W : Type} {m : Mat W} {k : Nat × Nat} (w : W)
    (h : matGet m k = none) : matSet m k w = m ++ [(k, w)] := by
  unfold matSet; simp [h]

theorem map_replace_fix {W : Type} {m : Mat W} {k : Nat × Nat} {w : W}
    (h : ∀ e ∈ m, e.1 = k → e.2 = w) :
    m.map (fun e => if e.1 = k then (k, w) else e) = m := by
  induction m with
  | nil => rfl
  | cons e m ih =>
      by_cases he : e.1 = k
      · have h2 : e.2 = w := h e (by simp) he
        have hfix : (if e.1 = k then (k, w) else e) = e := by
          rw [if_pos he, ← he, ← h2]
        simp only [List.map_cons, hfix]
        rw [ih (fun x hx hk => h x (by simp [hx]) hk)]
      · simp only [List.map_cons, if_neg he]
        rw [ih (fun x hx hk => h x (by simp [hx]) hk)]

theorem matSet_key_val {W : Type} (m : Mat W) (k : Nat × Nat) (w : W) :
    ∀ e ∈ matSet m k w, e.1 = k → e.2 = w := by
  unfold matSet
  by_cases hs : (matGet m k).isSome
  · rw [if_pos hs]
    intro e he hk
    rw [List.mem_map] at he
    obtain ⟨x, hx, hfe⟩ := he
    by_cases hxk : x.1 = k
    · rw [if_pos hxk] at hfe; rw [← hfe]
    · rw [if_neg hxk] at hfe; rw [← hfe] at hk; exact absurd hk hxk
  · rw [if_neg hs]
    intro e he hk
    rcases List.mem_append.mp he with h1 | h2
    · exact absurd hk ((matGet_eq_none_iff m k).mp (Option.not_isSome_iff_eq_none.mp hs) e h1)
    · simp only [List.mem_singleton] at h2; rw [h2]

theorem matSet_of_keys_fixed {W : Type} (m1 : Mat W) (k : Nat × Nat) (w : W)
    (hs : (matGet m1 k).isSome) (hfix : ∀ e ∈ m1, e.1 = k → e.2 = w) :
    matSet m1 k w = m1 := by
  unfold matSet
  rw [if_pos hs, map_replace_fix hfix]

theorem matSet_idem {W : Type} (m : Mat W) (k : Nat × Nat) (w : W) :
    matSet (matSet m k w) k w = matSet m k w :=
  matSet_of_keys_fixed (matSet m k w) k w
    (by rw [matGet_matSet_self]; rfl) (matSet_key_val m k w)

theorem matKeysNodup_matSet {W : Type} (m : Mat W) (k : Nat × Nat) (w : W)
    (h : matKeysNodup m) : matKeysNodup (matSet m k w) := by
  unfold matSet
  by_cases hs : (matGet m k).isSome
  · rw [if_pos hs]
    unfold matKeysNodup at h ⊢
    have hf : (fun (e : (Nat × Nat) × W) => (if e.1 = k then (k, w) else e).1) =
        fun e => e.1 := by
      funext e; by_cases he : e.1 = k <;> simp [he]
    rw [List.map_map]
    show (m.map (fun e => (if e.1 = k then (k, w) else e).1)).Nodup
    rw [hf]; exact h
  · rw [if_neg hs]
    unfold matKeysNodup at h ⊢
    rw [List.map_append]
    rw [List.nodup_append]
    refine ⟨h, by simp, ?_⟩
    intro x hx hx2
    simp only [List.map_cons, List.map_nil, List.mem_singleton] at hx2
    rw [List.mem_map] at hx
    obtain ⟨e, he, hek⟩ := hx
    exact (matGet_eq_none_iff m k).mp (Option.not_isSome_iff_eq_none.mp hs) e he
      (hek.trans hx2)

theorem matGet_setAll_of_get {W : Type} (ks : List (Nat × Nat)) (m : Mat W)
    (k : Nat × Nat) (w : W) (h : matGet m k = some w) :
    matGet (setAll m ks w) k = some w := by
  induction ks generalizing m with
  | nil => exact h
  | cons k2 ks ih =>
      show matGet (setAll (matSet m k2 w) ks w) k = some w
      apply ih
      by_cases hk : k = k2
      · subst hk; exact matGet_matSet_self m k w
      · rw [matGet_matSet_ne m w hk]; exact h

theorem matGet_setAll_mem {W : Type} (ks : List (Nat × Nat)) (m : Mat W)
    (k : Nat × Nat) (w : W) (h : k ∈ ks) :
    matGet (setAll m ks w) k = some w := by
  induction ks generalizing m with
  | nil => cases h
  | cons k2 ks ih =>
      show matGet (setAll (matSet m k2 w) ks w) k = some w
      rcases List.mem_cons.mp h with h1 | h2
      · subst h1
        exact matGet_setAll_of_get ks _ k w (matGet_matSet_self m k w)
      · exact ih (matSet m k2 w) h2

/-! ## Lemmas about the Identity Registry model -/

theorem nameId_append_left {ns : List String} {s : String} {i : Nat} (ms : List String)
    (h : nameId ns s = some i) : nameId (ns ++ ms) s = some i := by
  induction ns generalizing i with
  | nil => simp [nameId] at h
  | cons n ns ih =>
      by_cases hn : n = s
      · simp only [nameId, List.cons_append, if_pos hn] at h ⊢; exact h
      · simp only [nameId, List.cons_append, if_neg hn, Option.map_eq_some'] at h ⊢
        obtain ⟨j, hj, hij⟩ := h
        exact ⟨j, ih hj, hij⟩

theorem nameId_append_right {ns : List String} {s : String} (ms : List String)
    (h : nameId ns s = none) :
    nameId (ns ++ ms) s = (nameId ms s).map (fun j => j + ns.length) := by
  induction ns with
  | nil => cases h2 : nameId ms s <;> simp [h2]
  | cons n ns ih =>
      have hn : ¬ n = s := by
        intro hh
        simp [nameId, hh] at h
      have h2 : nameId ns s = none := by
        by_cases hcase : nameId ns s = none
        · exact hcase
        · exfalso
          obtain ⟨j, hj⟩ := Option.ne_none_iff_exists'.mp hcase
          simp [nameId, hn, hj] at h
      have hstep : nameId ((n :: ns) ++ ms) s =
          (nameId (ns ++ ms) s).map (fun i => i + 1) := by
        simp [nameId, hn]
      rw [hstep, ih h2]
      cases hms : nameId ms s with
      | none => simp
      | some j =>
          simp only [Option.map_some', Option.some.injEq, List.length_cons]
          omega

theorem nameId_upsert_self (ns : List String) (s : String) :
    nameId (upsertName ns s).2 s = some (upsertName ns s).1 := by
  unfold upsertName
  cases h : nameId ns s with
  | some i => simp [h]
  | none =>
      simp only [h]
      rw [nameId_append_right _ h]
      simp [nameId]

theorem upsertName_extend (ns : List String) (s : String) :
    ∃ ms, (upsertName ns s).2 = ns ++ ms := by
  unfold upsertName
  cases h : nameId ns s with
  | some i => exact ⟨[], by simp [h]⟩
  | none => exact ⟨[s], by simp [h]⟩

theorem nameId_upsert_stable {ns : List String} {t : String} {i : Nat} (s : String)
    (h : nameId ns t = some i) : nameId (upsertName ns s).2 t = some i := by
  obtain ⟨ms, hms⟩ := upsertName_extend ns s
  rw [hms]; exact nameId_append_left ms h

theorem nameId_getElem? {ns : List String} {s : String} {i : Nat}
    (h : nameId ns s = some i) : ns[i]? = some s := by
  induction ns generalizing i with
  | nil => simp [nameId] at h
  | cons n ns ih =>
      by_cases hn : n = s
      · simp only [nameId, if_pos hn, Option.some.injEq] at h
        subst h; simpa using hn
      · simp only [nameId, if_neg hn, Option.map_eq_some'] at h
        obtain ⟨j, hj, hij⟩ := h
        subst hij
        simpa using ih hj

theorem getNode_edgeCtr (st : Registry) (n : String) :
    (getNode st n).2.edgeCtr = st.edgeCtr := rfl

theorem getNode_nodes_extend (st : Registry) (n : String) :
    ∃ ms, (getNode st n).2.nodes = st.nodes ++ ms := by
  unfold getNode
  obtain ⟨ms, hms⟩ := upsertName_extend st.nodes n
  exact ⟨ms, by simp [hms]⟩

theorem nameId_getNode_self (st : Registry) (n : String) :
    nameId (getNode st n).2.nodes n = some (getNode st n).1 := by
  unfold getNode
  exact nameId_upsert_self st.nodes n

theorem getNode_known {st : Registry} {n : String} {i : Nat}
    (h : nameId st.nodes n = some i) : getNode st n = (i, st) := by
  unfold getNode upsertName
  rw [h]

theorem getNodes_edgeCtr (ns : List String) (st : Registry) :
    (getNodes st ns).2.edgeCtr = st.edgeCtr := by
  induction ns generalizing st with
  | nil => rfl
  | cons n ns ih =>
      show (getNodes (getNode st n).2 ns).2.edgeCtr = st.edgeCtr
      rw [ih, getNode_edgeCtr]

theorem getNodes_nodes_extend (ns : List String) (st : Registry) :
    ∃ ms, (getNodes st ns).2.nodes = st.nodes ++ ms := by
  induction ns generalizing st with
  | nil => exact ⟨[], by simp [getNodes]⟩
  | cons n ns ih =>
      obtain ⟨m1, h1⟩ := getNode_nodes_extend st n
      obtain ⟨m2, h2⟩ := ih ((getNode st n).2)
      refine ⟨m1 ++ m2, ?_⟩
      show (getNodes (getNode st n).2 ns).2.nodes = st.nodes ++ (m1 ++ m2)
      rw [h2, h1, List.append_assoc]

theorem nameId_getNodes_stable {st : Registry} {t : String} {i : Nat} (ns : List String)
    (h : nameId st.nodes t = some i) : nameId (getNodes st ns).2.nodes t = some i := by
  obtain ⟨ms, hms⟩ := getNodes_nodes_extend ns st
  rw [hms]; exact nameId_append_left ms h

theorem getNodes_resolves {ns : List String} {n : String} (st : Registry) (h : n ∈ ns) :
    ∃ i, i ∈ (getNodes st ns).1 ∧ nameId (getNodes st ns).2.nodes n = some i := by
  induction ns generalizing st with
  | nil => cases h
  | cons n0 ns ih =>
      rcases List.mem_cons.mp h with h1 | h2
      · subst h1
        refine ⟨(getNode st n).1, ?_, ?_⟩
        · show (getNode st n).1 ∈ (getNode st n).1 :: (getNodes (getNode st n).2 ns).1
          simp
        · show nameId (getNodes (getNode st n).2 ns).2.nodes n = some (getNode st n).1
          exact nameId_getNodes_stable ns (nameId_getNode_self st n)
      · obtain ⟨i, hi1, hi2⟩ := ih ((getNode st n0).2) h2
        refine ⟨i, ?_, ?_⟩
        · show i ∈ (getNode st n0).1 :: (getNodes (getNode st n0).2 ns).1
          simp [hi1]
        · exact hi2

/-! ## Lemmas about relation lookup and slicing -/

theorem findRel_mem {W : Type} {rs : List (GRel W)} {rid : Nat} {r : GRel W}
    (h : findRel rs rid = some r) : r ∈ rs ∧ r.rid = rid := by
  refine ⟨List.mem_of_find?_eq_some h, ?_⟩
  have := List.find?_some h
  simpa using this

theorem findRel_updateRel {W : Type} {rs : List (GRel W)} {rid : Nat} {r : GRel W}
    (f : GRel W → GRel W) (hf : ∀ x, (f x).rid = x.rid)
    (h : findRel rs rid = some r) :
    findRel (updateRel rs rid f) rid = some (f r) := by
  induction rs with
  | nil => simp [findRel] at h
  | cons r0 rs ih =>
      by_cases h0 : r0.rid = rid
      · unfold findRel at h
        rw [List.find?_cons_of_pos _ (by simpa using h0)] at h
        cases h
        unfold updateRel findRel
        simp only [List.map_cons, if_pos h0]
        rw [List.find?_cons_of_pos _ (by simp [hf, h0])]
      · unfold findRel at h
        rw [List.find?_cons_of_neg _ (by simpa using h0)] at h
        unfold updateRel findRel
        simp only [List.map_cons, if_neg h0]
        rw [List.find?_cons_of_neg _ (by simpa using h0)]
        exact ih h

theorem findRel_append_of_none {W : Type} {rs : List (GRel W)} {rid : Nat}
    (rs2 : List (GRel W)) (h : findRel rs rid = none) :
    findRel (rs ++ rs2) rid = findRel rs2 rid := by
  induction rs with
  | nil => rfl
  | cons r0 rs ih =>
      unfold findRel at h ⊢
      by_cases h0 : r0.rid = rid
      · rw [List.find?_cons_of_pos _ (by simpa using h0)] at h; cases h
      · rw [List.find?_cons_of_neg _ (by simpa using h0)] at h
        rw [List.cons_append, List.find?_cons_of_neg _ (by simpa using h0)]
        exact ih h

theorem findRel_of_all_ne {W : Type} {rs : List (GRel W)} {rid : Nat}
    (h : ∀ r ∈ rs, r.rid ≠ rid) : findRel rs rid = none := by
  induction rs with
  | nil => rfl
  | cons r0 rs ih =>
      unfold findRel
      rw [List.find?_cons_of_neg _ (by simpa using h r0 (by simp))]
      exact ih (fun r hr => h r (by simp [hr]))

theorem insSorted_ne_nil {V : Type} (p : Nat × V) (l : List (Nat × V)) :
    insSorted p l ≠ [] := by
  cases l with
  | nil => simp [insSorted]
  | cons q l =>
      unfold insSorted
      by_cases h : p.1 ≤ q.1 <;> simp [h]

theorem sortByIdx_eq_nil {V : Type} {l : List (Nat × V)} (h : sortByIdx l = []) :
    l = [] := by
  cases l with
  | nil => rfl
  | cons p l => exact absurd h (insSorted_ne_nil p _)

theorem rowSlice_nil_matGet {W : Type} {m : Mat W} {i : Nat} (j : Nat)
    (h : rowSlice m i = []) : matGet m (i, j) = none := by
  unfold rowSlice at h
  have hf : m.filter (fun e => decide (e.1.1 = i)) = [] :=
    List.map_eq_nil_iff.mp (sortByIdx_eq_nil h)
  rw [matGet_eq_none_iff]
  intro e he hk
  have hmem : e ∈ m.filter (fun e => decide (e.1.1 = i)) := by
    rw [List.mem_filter]
    exact ⟨he, by simp [hk]⟩
  rw [hf] at hmem
  cases hmem

theorem rowSlice_append_of_empty {W : Type} {m : Mat W} {i : Nat} (j : Nat) (v : W)
    (h : rowSlice m i = []) : rowSlice (m ++ [((i, j), v)]) i = [(j, v)] := by
  unfold rowSlice at h ⊢
  have hf : m.filter (fun e => decide (e.1.1 = i)) = [] :=
    List.map_eq_nil_iff.mp (sortByIdx_eq_nil h)
  rw [List.filter_append, hf]
  simp [sortByIdx, insSorted]

theorem foldlM_all_skip {α β ε : Type} (l : List α) (f : β → α → Except ε β) (b : β)
    (h : ∀ a ∈ l, ∀ acc, f acc a = pure acc) : l.foldlM f b = pure b := by
  induction l generalizing b with
  | nil => rfl
  | cons a l ih =>
      rw [List.foldlM_cons, h a (by simp) b]
      show (pure b : Except ε β) >>= l.foldlM f = pure b
      rw [pure_bind]
      exact ih b (fun x hx => h x (by simp [hx]))

theorem except_ok_bind {ε α β : Type} (a : α) (f : α → Except ε β) :
    (Except.ok a >>= f) = f a := rfl

theorem nameId_getNode_stable {st : Registry} {t : String} {i : Nat} (n : String)
    (h : nameId st.nodes t = some i) : nameId (getNode st n).2.nodes t = some i := by
  obtain ⟨ms, hms⟩ := getNode_nodes_extend st n
  rw [hms]; exact nameId_append_left ms h

theorem matSet_nil {W : Type} (k : Nat × Nat) (w : W) :
    matSet ([] : Mat W) k w = [(k, w)] := rfl

theorem querySRD_resolved {W : Type} {g : Graph W} {r s d : String} {sid did rid : Nat}
    {rel : GRel W} (hs : nameId g.nodes s = some sid)
    (hr : nameId g.relNames r = some rid)
    (hrel : findRel g.relations rid = some rel)
    (hd : nameId g.nodes d = some did) :
    querySRD g r s d = (rowSlice rel.A sid).mapM (fun p => do
      let wv ←
        match matGet rel.B (p.1, did) with
        | some v => Except.ok (PyW.pw v)
        | none => Except.error PyErr.noValue
      pure (EdgeG.mk rid sid did wv p.1)) := by
  simp only [querySRD, Graph.getItem, hs, hr, hrel, hd, except_ok_bind]

/-! ## The claims -/

/-- C4 counterexample: with a relation present (`friend` stores
`bob → alice`), the query with source "bob" and the never-seen
destination name "nonexistent" raises `KeyError` while resolving the
destination, instead of returning an empty sequence without error as
the claim states. -/
theorem C4_counterexample :
    querySD (Graph._add (emptyGraph Bool) "friend" "bob" "alice" true none)
        "bob" "nonexistent" = Except.error PyErr.keyError := by
  rfl

/-- C4 (amended): a bound destination name that was never seen raises
`KeyError` during name resolution (counterexample above); when both
bound names are known and no relation stores a matching composed entry,
the query returns the empty sequence and raises no error, no matter how
many relations exist. -/
theorem C4_known_miss_is_empty {W : Type} (g : Graph W) (s d : String)
    (sid did : Nat) (hs : nameId g.nodes s = some sid)
    (hd : nameId g.nodes d = some did)
    (hmiss : ∀ rel ∈ g.relations, anySecondiGet rel.A rel.B sid did = none) :
    querySD g s d = Except.ok [] := by
  have hoks : g.getItem s = Except.ok sid := by unfold Graph.getItem; rw [hs]
  have hokd : g.getItem d = Except.ok did := by unfold Graph.getItem; rw [hd]
  simp only [querySD, hoks, hokd, except_ok_bind]
  apply foldlM_all_skip
  intro rel hrel acc
  rw [hmiss rel hrel]

/-- Witness for C4 (amended): in the one-relation graph storing only
`friend(bob → alice)`, the query for source "bob" and destination "bob"
(both known, no matching entry anywhere) yields the empty sequence. -/
theorem C4_known_miss_is_empty_witness :
    querySD (Graph._add (emptyGraph Bool) "friend" "bob" "alice" true none)
        "bob" "bob" = Except.ok [] :=
  C4_known_miss_is_empty (Graph._add (emptyGraph Bool) "friend" "bob" "alice" true none)
    "bob" "bob" 0 0 rfl rfl (by decide)

/-- C3 (code bug): with a bound source and destination and the relation
wildcard, the claim says every relation storing a matching `(s, d)`
entry contributes an Edge and the whole query raises no error.  On the
code, as soon as one relation has a matching entry, the yield reads the
local variable `rid`, which is never assigned on this path (the loop
over `self._relations.items()` binds the key to the shadowed name
`relation` instead), so the query raises `UnboundLocalError`.  The first
conjunct exhibits the stored matching entry (`friend` stores
`bob → alice`); the second evaluates the query at it. -/
theorem C3_match_raises_unbound_local :
    (Graph._add (emptyGraph Bool) "friend" "bob" "alice" true none).relations =
        [GRel.mk 0 "friend" [((0, 0), true)] [((0, 1), true)]]
      ∧ querySD (Graph._add (emptyGraph Bool) "friend" "bob" "alice" true none)
          "bob" "alice" = Except.error PyErr.unboundLocal := by
  exact ⟨rfl, rfl⟩

/-- C5 (code bug): the claim says an `add` whose relation name is not a
valid identifier or starts with the reserved `_` prefix actively raises.
The code's check is `assert NameError(...)`, which asserts a freshly
constructed (hence truthy) exception object and never raises.  At the
reserved-prefix name `"_friend"` — rejected by the name rule (first
conjunct) — the add silently inserts the edge: the relation is created
and the graph length grows to 1. -/
theorem C5_invalid_name_silently_added :
    relNameOk "_friend" = false
      ∧ (Graph._add (emptyGraph Nat) "_friend" "bob" "alice" 7 none).relations =
          [GRel.mk 0 "_friend" [((0, 0), true)] [((0, 1), 7)]]
      ∧ Graph.len (Graph._add (emptyGraph Nat) "_friend" "bob" "alice" 7 none) = 1 := by
  exact ⟨rfl, rfl, rfl⟩

/-- C6 (code bug): the claim says a `(None, relation, destination)`
query yields Edges carrying the weight stored in `B`, never a
placeholder.  The code's branch never assigns the local `weight`, which
keeps the initial `True`: after storing weight 42 on `dist(a → b)`
(second conjunct shows `B` holds 42 at edge 0, destination 1), the query
yields the Edge with the Python boolean `True` instead, and the two
values differ (third conjunct). -/
theorem C6_placeholder_weight :
    queryRD (Graph._add (emptyGraph Nat) "dist" "a" "b" 42 none) "dist" "b" =
        Except.ok [EdgeG.mk 0 0 1 (PyW.pbool true) 0]
      ∧ (Graph._add (emptyGraph Nat) "dist" "a" "b" 42 none).relations =
          [GRel.mk 0 "dist" [((0, 0), true)] [((0, 1), 42)]]
      ∧ (PyW.pbool true : PyW Nat) ≠ PyW.pw 42 := by
  refine ⟨rfl, rfl, by decide⟩

/-- C7: `len(relation)` is the non-zero count of `B` for an
incidence-mode relation and of `A` for an adjacency-mode relation
(relation.py `Relation.__len__`), and `len(graph)` is the sum of the
per-relation lengths (graph.py `Graph.__len__` over its incidence-pair
relations, whose length is `B.nvals`). -/
theorem C7_len_counts {W : Type} (rInc rAdj : RelPy W) (AI : Mat Bool) (BI : Mat W)
    (AA : Mat W) (g : Graph W)
    (h1 : rInc.storage = RelStorage.incidence AI BI)
    (h2 : rAdj.storage = RelStorage.adjacency AA) :
    RelPy.len rInc = matNvals BI
      ∧ RelPy.len rAdj = matNvals AA
      ∧ Graph.len g = (g.relations.map (fun rl => matNvals rl.B)).sum := by
  refine ⟨?_, ?_, ?_⟩
  · rw [RelPy.len, h1]
  · rw [RelPy.len, h2]
  · rfl

/-- Witness for C7 at concrete relations and a concrete graph. -/
theorem C7_len_counts_witness :
    RelPy.len (RelPy.mk 0 "cw" (RelStorage.incidence [((0, 0), true)]
        [((0, 1), (5 : Nat)), ((0, 2), 6)])) = 2
      ∧ RelPy.len (RelPy.mk 1 "fr" (RelStorage.adjacency [((0, 1), (7 : Nat))])) = 1
      ∧ Graph.len (Graph.mk ["a", "b"] ["fr"] 1
          [GRel.mk 0 "fr" [((0, 0), true)] [((0, 1), (7 : Nat))]]) = 1 := by
  obtain ⟨x, y, z⟩ := C7_len_counts
    (RelPy.mk 0 "cw" (RelStorage.incidence [((0, 0), true)] [((0, 1), (5 : Nat)), ((0, 2), 6)]))
    (RelPy.mk 1 "fr" (RelStorage.adjacency [((0, 1), (7 : Nat))]))
    [((0, 0), true)] [((0, 1), (5 : Nat)), ((0, 2), 6)] [((0, 1), (7 : Nat))]
    (Graph.mk ["a", "b"] ["fr"] 1 [GRel.mk 0 "fr" [((0, 0), true)] [((0, 1), (7 : Nat))]])
    rfl rfl
  exact ⟨x, y, z.trans rfl⟩

/-- C9 counterexample: two `Edge` views that agree on every structural
field — relation id, source id, destination id, weight and edge id — but
are owned by two distinct graph objects (identity tokens 0 and 1) do NOT
compare equal under the NamedTuple equality, refuting the claim that
equality is determined solely by the structural tuple and does not
depend on the owning graph's object identity. -/
theorem C9_counterexample :
    edgeEq (EdgeV.mk 0 1 2 3 (7 : Nat) (some 4)) (EdgeV.mk 1 1 2 3 (7 : Nat) (some 4)) = false
      ∧ (EdgeV.mk 0 1 2 3 (7 : Nat) (some 4)).rid = (EdgeV.mk 1 1 2 3 (7 : Nat) (some 4)).rid
      ∧ (EdgeV.mk 0 1 2 3 (7 : Nat) (some 4)).sid = (EdgeV.mk 1 1 2 3 (7 : Nat) (some 4)).sid
      ∧ (EdgeV.mk 0 1 2 3 (7 : Nat) (some 4)).did = (EdgeV.mk 1 1 2 3 (7 : Nat) (some 4)).did
      ∧ (EdgeV.mk 0 1 2 3 (7 : Nat) (some 4)).weight =
          (EdgeV.mk 1 1 2 3 (7 : Nat) (some 4)).weight
      ∧ (EdgeV.mk 0 1 2 3 (7 : Nat) (some 4)).eid = (EdgeV.mk 1 1 2 3 (7 : Nat) (some 4)).eid
      ∧ (EdgeV.mk 0 1 2 3 (7 : Nat) (some 4)).graph ≠
          (EdgeV.mk 1 1 2 3 (7 : Nat) (some 4)).graph := by
  refine ⟨rfl, rfl, rfl, rfl, rfl, rfl, by decide⟩

/-- C9 (amended): `Edge` and `Hedge` equality is the NamedTuple's
componentwise comparison of the FULL field tuple — owning graph
reference (by object identity) and weight(s) included — i.e. it
coincides with structural equality of all fields; two views with equal
ids compare equal exactly when they also share the owning graph object
and the weights, and never across distinct graph objects. -/
theorem C9_eq_is_full_tuple_eq {W : Type} [DecidableEq W] (e1 e2 : EdgeV W)
    (d1 d2 : HedgeV W) :
    (edgeEq e1 e2 = true ↔ e1 = e2) ∧ (hedgeEq d1 d2 = true ↔ d1 = d2) := by
  constructor
  · cases e1; cases e2
    simp [edgeEq, EdgeV.mk.injEq, and_assoc]
  · cases d1; cases d2
    simp [hedgeEq, HedgeV.mk.injEq, and_assoc]

/-- C10: `del G[None, None, None]` clears the `A` and `B` matrices of
every relation while keeping the relation objects registered, after
which `len(graph)` is 0 and the set of `(rid, name)` pairs is unchanged;
the key patterns `(s, None, d)`, `(s, None, None)`, `(None, r, d)`,
`(None, r, None)` and `(None, None, d)` all fall into bare `pass`
branches and leave the graph unchanged, raising nothing beyond
resolution of a bound source name. -/
theorem C10_delitem (g : Graph Nat) (s r d : String) (sid : Nat)
    (hs : nameId g.nodes s = some sid) :
    Graph.delItem g (some s) none (some d) = Except.ok g
      ∧ Graph.delItem g (some s) none none = Except.ok g
      ∧ Graph.delItem g none (some r) (some d) = Except.ok g
      ∧ Graph.delItem g none (some r) none = Except.ok g
      ∧ Graph.delItem g none none (some d) = Except.ok g
      ∧ Graph.delItem g none none none = Except.ok (clearRels g)
      ∧ Graph.len (clearRels g) = 0
      ∧ (clearRels g).relations.map (fun rl => (rl.rid, rl.name)) =
          g.relations.map (fun rl => (rl.rid, rl.name)) := by
  have hok : Graph.getItem g s = Except.ok sid := by
    unfold Graph.getItem; rw [hs]
  refine ⟨?_, ?_, rfl, rfl, rfl, rfl, ?_, ?_⟩
  · show (Graph.getItem g s >>= fun _sid => pure g) = Except.ok g
    rw [hok]; rfl
  · show (Graph.getItem g s >>= fun _sid => pure g) = Except.ok g
    rw [hok]; rfl
  · unfold Graph.len clearRels
    rw [List.map_map]
    apply List.sum_eq_zero
    intro x hx
    rw [List.mem_map] at hx
    obtain ⟨rl, _, hrl⟩ := hx
    exact hrl.symm.trans rfl
  · unfold clearRels
    rw [List.map_map]
    exact List.map_congr_left (fun rl _ => rfl)

/-- C1 counterexample: adding `(friend, bob, alice, 7)` twice (allowed —
the incidence pair is a multigraph) and then querying the fully bound
triple yields TWO edges, one per accumulated edge id, not exactly one as
the claim states for every add. -/
theorem C1_counterexample :
    querySRD (Graph._add (Graph._add (emptyGraph Nat) "friend" "bob" "alice" 7 none)
          "friend" "bob" "alice" 7 none) "friend" "bob" "alice" =
        Except.ok [EdgeG.mk 0 0 1 (PyW.pw 7) 0, EdgeG.mk 0 0 1 (PyW.pw 7) 1]
      ∧ (2 : Nat) ≠ 1 := by
  exact ⟨rfl, by decide⟩

/-- C1 (amended): provided relation `r` stores no prior edge for the
resolved source — in particular on the first add of that source in that
relation — after `add(r, s, d, w)` the query with all of relation,
source and destination bound yields exactly one Edge, carrying weight
`w` and the freshly allocated edge id. -/
theorem C1_round_trip {W : Type} (g : Graph W) (r s d : String) (w : W)
    (hwf : Graph.wf g)
    (hrow : ∀ rel ∈ g.relations, rel.name = r →
      rowSlice rel.A (upsertName g.nodes s).1 = []) :
    querySRD (Graph._add g r s d w none) r s d =
      Except.ok [EdgeG.mk (upsertName g.relNames r).1 (upsertName g.nodes s).1
        (upsertName (upsertName g.nodes s).2 d).1 (PyW.pw w) g.edgeCtr] := by
  have hs2 : nameId (upsertName (upsertName g.nodes s).2 d).2 s =
      some (upsertName g.nodes s).1 :=
    nameId_upsert_stable d (nameId_upsert_self g.nodes s)
  have hd2 : nameId (upsertName (upsertName g.nodes s).2 d).2 d =
      some (upsertName (upsertName g.nodes s).2 d).1 :=
    nameId_upsert_self _ d
  have hr2 : nameId (upsertName g.relNames r).2 r = some (upsertName g.relNames r).1 :=
    nameId_upsert_self g.relNames r
  cases hfind : findRel g.relations (upsertName g.relNames r).1 with
  | some r0 =>
      obtain ⟨hmem, hridr0⟩ := findRel_mem hfind
      have hname : r0.name = r := by
        cases hni : nameId g.relNames r with
        | some i =>
            have hrid_eq : (upsertName g.relNames r).1 = i := by
              unfold upsertName; rw [hni]
            have h1 : g.relNames[i]? = some r := nameId_getElem? hni
            have h2 : g.relNames[r0.rid]? = some r0.name := hwf r0 hmem
            rw [hridr0, hrid_eq, h1] at h2
            exact (Option.some.injEq _ _).mp h2.symm
        | none =>
            exfalso
            have hrid_eq : (upsertName g.relNames r).1 = g.relNames.length := by
              unfold upsertName; rw [hni]
            have h2 : g.relNames[r0.rid]? = some r0.name := hwf r0 hmem
            rw [hridr0, hrid_eq] at h2
            rw [List.getElem?_eq_none (Nat.le_refl _)] at h2
            cases h2
      have hrow0 : rowSlice r0.A (upsertName g.nodes s).1 = [] := hrow r0 hmem hname
      have hrels : (Graph._add g r s d w none).relations =
          updateRel g.relations (upsertName g.relNames r).1
            (fun x => GRel.add x (upsertName g.nodes s).1 g.edgeCtr
              (upsertName (upsertName g.nodes s).2 d).1 w) := by
        simp only [Graph._add, hfind]
      have hfind2 : findRel (Graph._add g r s d w none).relations
          (upsertName g.relNames r).1 =
          some (GRel.add r0 (upsertName g.nodes s).1 g.edgeCtr
            (upsertName (upsertName g.nodes s).2 d).1 w) := by
        rw [hrels]
        exact findRel_updateRel _ (fun x => rfl) hfind
      rw [querySRD_resolved hs2 hr2 hfind2 hd2]
      have hAnone : matGet r0.A ((upsertName g.nodes s).1, g.edgeCtr) = none :=
        rowSlice_nil_matGet g.edgeCtr hrow0
      have hA : rowSlice (GRel.add r0 (upsertName g.nodes s).1 g.edgeCtr
          (upsertName (upsertName g.nodes s).2 d).1 w).A (upsertName g.nodes s).1 =
          [(g.edgeCtr, true)] := by
        show rowSlice (matSet r0.A ((upsertName g.nodes s).1, g.edgeCtr) true) _ = _
        rw [matSet_of_get_none true hAnone]
        exact rowSlice_append_of_empty g.edgeCtr true hrow0
      rw [hA]
      have hB : matGet (GRel.add r0 (upsertName g.nodes s).1 g.edgeCtr
          (upsertName (upsertName g.nodes s).2 d).1 w).B
          (g.edgeCtr, (upsertName (upsertName g.nodes s).2 d).1) = some w :=
        matGet_matSet_self _ _ _
      simp only [List.mapM_cons, List.mapM_nil, hB, except_ok_bind, pure_bind]
      rfl
  | none =>
      have hrels : (Graph._add g r s d w none).relations =
          g.relations ++ [GRel.add (GRel.mk (upsertName g.relNames r).1 r [] [])
            (upsertName g.nodes s).1 g.edgeCtr
            (upsertName (upsertName g.nodes s).2 d).1 w] := by
        simp only [Graph._add, hfind]
      have hfind2 : findRel (Graph._add g r s d w none).relations
          (upsertName g.relNames r).1 =
          some (GRel.add (GRel.mk (upsertName g.relNames r).1 r [] [])
            (upsertName g.nodes s).1 g.edgeCtr
            (upsertName (upsertName g.nodes s).2 d).1 w) := by
        rw [hrels, findRel_append_of_none _ hfind]
        unfold findRel
        rw [List.find?_cons_of_pos _ (by simp [GRel.add])]
      rw [querySRD_resolved hs2 hr2 hfind2 hd2]
      have hA : rowSlice (GRel.add (GRel.mk (upsertName g.relNames r).1 r [] [])
          (upsertName g.nodes s).1 g.edgeCtr
          (upsertName (upsertName g.nodes s).2 d).1 w).A (upsertName g.nodes s).1 =
          [(g.edgeCtr, true)] := by
        show rowSlice (matSet [] ((upsertName g.nodes s).1, g.edgeCtr) true) _ = _
        rw [matSet_nil]
        exact rowSlice_append_of_empty (m := []) g.edgeCtr true rfl
      rw [hA]
      have hB : matGet (GRel.add (GRel.mk (upsertName g.relNames r).1 r [] [])
          (upsertName g.nodes s).1 g.edgeCtr
          (upsertName (upsertName g.nodes s).2 d).1 w).B
          (g.edgeCtr, (upsertName (upsertName g.nodes s).2 d).1) = some w := by
        show matGet (matSet ([] : Mat W)
          (g.edgeCtr, (upsertName (upsertName g.nodes s).2 d).1) w) _ = some w
        exact matGet_matSet_self _ _ _
      simp only [List.mapM_cons, List.mapM_nil, hB, except_ok_bind, pure_bind]
      rfl

/-- Witness for C1 (amended): the first add into an empty graph round
trips through the fully bound query as exactly one weighted edge. -/
theorem C1_round_trip_witness :
    querySRD (Graph._add (emptyGraph Nat) "fr" "a" "b" 7 none) "fr" "a" "b" =
      Except.ok [EdgeG.mk 0 0 1 (PyW.pw 7) 0] :=
  C1_round_trip (emptyGraph Nat) "fr" "a" "b" 7 (by decide) (by decide)

/-- C2: a single incidence-mode `Relation.add` call with `eid=None`
allocates exactly one new edge id — the registry counter value, and the
counter advances by exactly one — then writes `A[s, e] = A_weight` for
every supplied source `s` and `B[e, d] = weight` for every supplied
destination `d`, all entries sharing that one edge id `e`. -/
theorem C2_hyperedge_shares_one_eid {W : Type} (st : Registry) (r : RelPy W)
    (A : Mat Bool) (B : Mat W) (ss ds : List String) (w : W) (aw : Bool)
    (hst : r.storage = RelStorage.incidence A B) :
    ∃ st2 A2 B2,
      RelPy.add st r (EndPt.many ss) (EndPt.many ds) w none aw =
          Except.ok (st2, { r with storage := RelStorage.incidence A2 B2 })
        ∧ st2.edgeCtr = st.edgeCtr + 1
        ∧ (∀ s ∈ ss, ∃ i, nameId st2.nodes s = some i
            ∧ matGet A2 (i, st.edgeCtr) = some aw)
        ∧ (∀ d ∈ ds, ∃ j, nameId st2.nodes d = some j
            ∧ matGet B2 (st.edgeCtr, j) = some w) := by
  obtain ⟨rid, name, storage⟩ := r
  simp only at hst
  subst hst
  refine ⟨(getNodes (getNodes (newEdgeId st).2 ss).2 ds).2, _, _, rfl, ?_, ?_, ?_⟩
  · rw [getNodes_edgeCtr, getNodes_edgeCtr]; rfl
  · intro s hs
    obtain ⟨i, hmem, hname⟩ := getNodes_resolves (newEdgeId st).2 hs
    refine ⟨i, nameId_getNodes_stable ds hname, ?_⟩
    exact matGet_setAll_mem _ A (i, st.edgeCtr) aw
      (List.mem_map.mpr ⟨i, hmem, rfl⟩)
  · intro d hd
    obtain ⟨j, hmem, hname⟩ := getNodes_resolves (getNodes (newEdgeId st).2 ss).2 hd
    refine ⟨j, hname, ?_⟩
    exact matGet_setAll_mem _ B (st.edgeCtr, j) w
      (List.mem_map.mpr ⟨j, hmem, rfl⟩)

/-- Witness for C2: a fresh registry, an empty incidence relation, one
call adding the hyperedge `{x, y} → {z}` with weight 5. -/
theorem C2_hyperedge_shares_one_eid_witness :
    ∃ st2 A2 B2,
      RelPy.add (Registry.mk [] 0) (RelPy.mk 0 "cw" (RelStorage.incidence [] []))
          (EndPt.many ["x", "y"]) (EndPt.many ["z"]) (5 : Nat) none true =
          Except.ok (st2, { RelPy.mk 0 "cw" (RelStorage.incidence [] ([] : Mat Nat)) with
            storage := RelStorage.incidence A2 B2 })
        ∧ st2.edgeCtr = (Registry.mk [] 0).edgeCtr + 1
        ∧ (∀ s ∈ ["x", "y"], ∃ i, nameId st2.nodes s = some i
            ∧ matGet A2 (i, (Registry.mk [] 0).edgeCtr) = some true)
        ∧ (∀ d ∈ ["z"], ∃ j, nameId st2.nodes d = some j
            ∧ matGet B2 ((Registry.mk [] 0).edgeCtr, j) = some 5) :=
  C2_hyperedge_shares_one_eid (Registry.mk [] 0)
    (RelPy.mk 0 "cw" (RelStorage.incidence [] [])) [] [] ["x", "y"] ["z"] 5 true rfl

/-- C8: an adjacency-mode `Relation.add` resolves the two endpoints and
performs exactly the single point write `A[sid, did] = weight`: the
returned relation's matrix is `matSet A (sid, did) w`, where the stored
value at `(sid, did)` is `w` (so re-adding the pair overwrites whatever
was stored), every other key keeps its previous value, at most one entry
per key is kept, and repeating the identical call returns the identical
registry and relation state (hence also the identical length). -/
theorem C8_adjacency_single_write {W : Type} (st : Registry) (r : RelPy W) (A : Mat W)
    (s d : String) (w : W) (eido : Option Nat) (aw : Bool)
    (hst : r.storage = RelStorage.adjacency A) (hA : matKeysNodup A) :
    ∃ sid did st2,
      RelPy.add st r (EndPt.one s) (EndPt.one d) w eido aw =
          Except.ok (st2, { r with storage := RelStorage.adjacency (matSet A (sid, did) w) })
        ∧ matGet (matSet A (sid, did) w) (sid, did) = some w
        ∧ (∀ k, k ≠ (sid, did) → matGet (matSet A (sid, did) w) k = matGet A k)
        ∧ matKeysNodup (matSet A (sid, did) w)
        ∧ RelPy.add st2 { r with storage := RelStorage.adjacency (matSet A (sid, did) w) }
            (EndPt.one s) (EndPt.one d) w eido aw =
            Except.ok (st2, { r with storage := RelStorage.adjacency (matSet A (sid, did) w) }) := by
  obtain ⟨rid, name, storage⟩ := r
  simp only at hst
  subst hst
  refine ⟨(getNode st s).1, (getNode (getNode st s).2 d).1, (getNode (getNode st s).2 d).2,
    rfl, matGet_matSet_self _ _ _, fun k hk => matGet_matSet_ne A w hk,
    matKeysNodup_matSet _ _ _ hA, ?_⟩
  have hs2 : nameId (getNode (getNode st s).2 d).2.nodes s = some (getNode st s).1 :=
    nameId_getNode_stable d (nameId_getNode_self st s)
  have hd2 : nameId (getNode (getNode st s).2 d).2.nodes d =
      some (getNode (getNode st s).2 d).1 :=
    nameId_getNode_self (getNode st s).2 d
  simp only [RelPy.add, getNode_known hs2, getNode_known hd2, matSet_idem]

/-- Witness for C8: a fresh registry and an empty adjacency relation,
adding `a → b` with weight 5. -/
theorem C8_adjacency_single_write_witness :
    ∃ sid did st2,
      RelPy.add (Registry.mk [] 0) (RelPy.mk 0 "fr" (RelStorage.adjacency []))
          (EndPt.one "a") (EndPt.one "b") (5 : Nat) none true =
          Except.ok (st2, { RelPy.mk 0 "fr" (RelStorage.adjacency ([] : Mat Nat)) with
            storage := RelStorage.adjacency (matSet [] (sid, did) 5) })
        ∧ matGet (matSet ([] : Mat Nat) (sid, did) 5) (sid, did) = some 5
        ∧ (∀ k, k ≠ (sid, did) →
            matGet (matSet ([] : Mat Nat) (sid, did) 5) k = matGet ([] : Mat Nat) k)
        ∧ matKeysNodup (matSet ([] : Mat Nat) (sid, did) 5)
        ∧ RelPy.add st2 { RelPy.mk 0 "fr" (RelStorage.adjacency ([] : Mat Nat)) with
              storage := RelStorage.adjacency (matSet [] (sid, did) 5) }
            (EndPt.one "a") (EndPt.one "b") (5 : Nat) none true =
            Except.ok (st2, { RelPy.mk 0 "fr" (RelStorage.adjacency ([] : Mat Nat)) with
              storage := RelStorage.adjacency (matSet [] (sid, did) 5) }) :=
  C8_adjacency_single_write (Registry.mk [] 0) (RelPy.mk 0 "fr" (RelStorage.adjacency []))
    [] "a" "b" 5 none true rfl (by decide)

/-- Witness for C10 at a concrete graph containing one relation and the
known source name "bob". -/
theorem C10_delitem_witness :
    Graph.delItem (Graph._add (emptyGraph Nat) "fr" "bob" "alice" 7 none)
        (some "bob") none (some "zzz") =
      Except.ok (Graph._add (emptyGraph Nat) "fr" "bob" "alice" 7 none) :=
  (C10_delitem (Graph._add (emptyGraph Nat) "fr" "bob" "alice" 7 none)
    "bob" "r" "zzz" 0 rfl).1

end Graphony
